import Mathlib

/-!
# Verification of the market-data time-series store core

This file gives a shallow embedding, in Lean 4, of the core of the
time-series database: the in-memory B+ tree index (bplus_tree.hpp), the
mmap-backed column storage (column_storage.cpp/.hpp), and the series
write pipeline (timeseries_db.cpp/.hpp).  Machine sizes are modelled as
`Nat`; an 8-byte stored record (timestamp, raw IEEE-754 price bit
pattern, volume) is modelled as its 64-bit value, since the storage
layer only ever moves records with memcpy and never computes on them.
Each definition is transcribed from the named C++ function; comments
point back to the source.
-/

/-- One tick record.  `price` holds the raw 64-bit pattern of the C++
double: the store copies prices byte for byte and never does arithmetic
on them, so the bit pattern is a faithful model. -/
structure Tick where
  ts : Nat
  price : Nat
  vol : Nat
deriving DecidableEq

instance : Inhabited Tick := ⟨⟨0, 0, 0⟩⟩

namespace BPlusTree

/-- Branching factor, `ORDER = 64` in bplus_tree.hpp line 15. -/
def ORDER : Nat := 64

/-- A tree node: either a leaf with parallel key and value lists, or an
internal node with separator keys and children (bplus_tree.hpp lines
18-37).  The leaf forward pointers of the source are represented by the
in-order sequence of leaves (`leaves` below): splits link each new leaf
directly after the leaf it was cut from, so the chain of `next` pointers
always enumerates the leaves in left-to-right tree order. -/
inductive BNode where
  | leaf (keys : List Nat) (vals : List Nat)
  | internal (keys : List Nat) (children : List BNode)

instance : Inhabited BNode := ⟨.leaf [] []⟩

/-- `std::upper_bound` on a sorted key list: index of the first key
strictly greater than `k`. -/
def upper_bound (ks : List Nat) (k : Nat) : Nat :=
  (ks.takeWhile (fun x => decide (x ≤ k))).length

/-- `std::lower_bound` on a sorted key list: index of the first key
not less than `k`. -/
def lower_bound (ks : List Nat) (k : Nat) : Nat :=
  (ks.takeWhile (fun x => decide (x < k))).length

/-- Insertion of a pair into a leaf at the `lower_bound` position
(bplus_tree.hpp lines 53-58 and 120-124): walk past the keys strictly
below `key` and place the pair in front of the first key `≥ key`, so a
later duplicate lands before the earlier ones. -/
def leaf_insert (key v : Nat) : List Nat → List Nat → List Nat × List Nat
  | k :: ks, w :: vs =>
    if k < key then
      let r := leaf_insert key v ks vs
      (k :: r.1, w :: r.2)
    else (key :: k :: ks, v :: w :: vs)
  | ks, vs => (ks ++ [key], vs ++ [v])

/-- `split_leaf` (bplus_tree.hpp lines 136-161): the root is a full
leaf; move the upper half to a new leaf and build a new root whose one
separator is the first key of the new leaf. -/
def split_leaf (ks vs : List Nat) : BNode :=
  let mid := ks.length / 2
  let rks := ks.drop mid
  .internal [rks.headD 0]
    [.leaf (ks.take mid) (vs.take mid), .leaf rks (vs.drop mid)]

/-- The halving step shared by the leaf splits (bplus_tree.hpp lines
140-149 and 167-176): cut the overfull leaf at `mid = size / 2` into the
retained lower half, the promoted separator (the first key of the upper
half), and the new upper leaf. -/
def cut_leaf (ks vs : List Nat) : BNode × Nat × BNode :=
  let mid := ks.length / 2
  let rks := ks.drop mid
  (.leaf (ks.take mid) (vs.take mid), rks.headD 0, .leaf rks (vs.drop mid))

/-- `split_internal` in the root case (bplus_tree.hpp lines 194-219):
promote the middle separator to a fresh root with two internal
children. -/
def split_internal_root (ks : List Nat) (cs : List BNode) : BNode :=
  let mid := ks.length / 2
  .internal [ks.getD mid 0]
    [.internal (ks.take mid) (cs.take (mid + 1)),
     .internal (ks.drop (mid + 1)) (cs.drop (mid + 1))]

/-- Recursion-depth fuel for tree walks.  The source itself assumes a
bounded depth (the non-root branch of `split_internal`, lines 220-223,
is left unimplemented with that comment); 64 levels is far beyond any
tree this development builds. -/
def treeFuel : Nat := 64

/-- Entry into the target child found by `insert_internal` (the
`upper_bound` descent of bplus_tree.hpp lines 111-114): `krest` and
`crest` are the separators and children to the right of the target.  A
leaf child receives the pair and is split in place inside the parent
when it reaches `ORDER` keys (lines 116-129, via
`split_leaf_with_parent`); an internal child is descended into (line
131).  The returned flag records whether a leaf split enlarged the
parent, which is exactly when the source reaches the parent-overflow
check of line 187.

`insert_walk` is the single pass over the parallel separator and child
lists forming the `upper_bound` index computation and the
`children[index]` access: separators `≤ key` are kept with their
children, and the first separator `> key` (or the final child) marks the
target. -/
def insert_into_child (rec : BNode → BNode) (key v : Nat) :
    BNode → List Nat → List BNode → List Nat × List BNode × Bool
  | .leaf lks lvs, krest, crest =>
    let p := leaf_insert key v lks lvs
    if ORDER ≤ p.1.length then
      let c := cut_leaf p.1 p.2
      (c.2.1 :: krest, c.1 :: c.2.2 :: crest, true)
    else (krest, .leaf p.1 p.2 :: crest, false)
  | .internal cks ccs, krest, crest =>
    (krest, rec (.internal cks ccs) :: crest, false)

/-- The `upper_bound` walk inside `insert_internal`; see
`insert_into_child`.  `rec` is the recursive descent into an internal
child. -/
def insert_walk (rec : BNode → BNode) (key v : Nat) : List Nat → List BNode →
    List Nat × List BNode × Bool
  | [], [c] => insert_into_child rec key v c [] []
  | k :: ks, c :: cs =>
    if k ≤ key then
      let r := insert_walk rec key v ks cs
      (k :: r.1, c :: r.2.1, r.2.2)
    else insert_into_child rec key v c (k :: ks) cs
  | ks, cs => (ks, cs, false)

/-- `insert_internal` (bplus_tree.hpp lines 109-133), with `isRoot`
recording whether `n` is the root (the source compares node pointers
with `root.get()` inside `split_internal`, line 194).  When a leaf
split has pushed the parent to `ORDER` keys, `split_internal` runs
(line 188): it rebuilds the root (lines 194-219) but does nothing for a
non-root node (the lines 220-223 TODO), so a non-root parent is
returned oversized unchanged. -/
def insert_internal (key v : Nat) : Nat → Bool → BNode → BNode
  | 0, _, n => n
  | _fuel + 1, _, .leaf ks vs => .leaf ks vs
  | fuel + 1, isRoot, .internal ks cs =>
    let r := insert_walk (insert_internal key v fuel false) key v ks cs
    if r.2.2 ∧ ORDER ≤ r.1.length then
      if isRoot then split_internal_root r.1 r.2.1 else .internal r.1 r.2.1
    else .internal r.1 r.2.1

/-- `BPlusTree::insert` (bplus_tree.hpp lines 46-67). -/
def insert (key v : Nat) (t : BNode) : BNode :=
  match t with
  | .leaf ks vs =>
    let p := leaf_insert key v ks vs
    if ORDER ≤ p.1.length then split_leaf p.1 p.2 else .leaf p.1 p.2
  | .internal ks cs => insert_internal key v treeFuel true (.internal ks cs)

/-- In-order leaf sequence: the chain of `next` pointers of the source
(bplus_tree.hpp lines 34, 151-153, 178-180). -/
def leaves : Nat → BNode → List (List Nat × List Nat)
  | 0, _ => []
  | _ + 1, .leaf ks vs => [(ks, vs)]
  | fuel + 1, .internal _ cs => (cs.map (leaves fuel)).flatten

/-- Number of leaves below a node. -/
def count_leaves : Nat → BNode → Nat
  | 0, _ => 0
  | _ + 1, .leaf _ _ => 1
  | fuel + 1, .internal _ cs => (cs.map (count_leaves fuel)).sum

/-- `find_leaf` (bplus_tree.hpp lines 95-106), as the position of the
found leaf in the in-order leaf sequence: descend by `upper_bound` on
the separators at every internal node. -/
def find_leaf_pos (key : Nat) : Nat → BNode → Nat
  | 0, _ => 0
  | _ + 1, .leaf _ _ => 0
  | fuel + 1, .internal ks cs =>
    let i := upper_bound ks key
    ((cs.take i).map (count_leaves fuel)).sum + find_leaf_pos key fuel (cs.getD i default)

/-- The per-leaf loop of `range_query` (bplus_tree.hpp lines 78-88):
emit every pair with `lo ≤ k ≤ hi`; on seeing a key `> hi` return early
(second component `true`). -/
def scan_pairs (lo hi : Nat) : List (Nat × Nat) → List (Nat × Nat) × Bool
  | [] => ([], false)
  | (k, v) :: rest =>
    if lo ≤ k ∧ k ≤ hi then
      let r := scan_pairs lo hi rest
      ((k, v) :: r.1, r.2)
    else if hi < k then ([], true)
    else scan_pairs lo hi rest

/-- The leaf walk of `range_query`: follow the forward chain until the
scan reports a key past `hi` or the chain ends. -/
def walk_leaves (lo hi : Nat) : List (List Nat × List Nat) → List (Nat × Nat)
  | [] => []
  | (ks, vs) :: rest =>
    let r := scan_pairs lo hi (ks.zip vs)
    if r.2 then r.1 else r.1 ++ walk_leaves lo hi rest

/-- `BPlusTree::range_query` (bplus_tree.hpp lines 70-91): find the leaf
for `lo`, then walk forward along the leaf chain. -/
def range_query (t : BNode) (lo hi : Nat) : List (Nat × Nat) :=
  walk_leaves lo hi ((leaves treeFuel t).drop (find_leaf_pos lo treeFuel t))

/-- Bound check of the claim on node shape: every internal node holds at
most `ORDER` separators and `ORDER + 1` children.  A `false` result
exhibits a node violating the bound (fuel only truncates the walk, it
can never invent a violation). -/
def nodes_within_order : Nat → BNode → Bool
  | 0, _ => true
  | _ + 1, .leaf _ _ => true
  | fuel + 1, .internal ks cs =>
    decide (ks.length ≤ ORDER) && decide (cs.length ≤ ORDER + 1) &&
      (cs.map (nodes_within_order fuel)).all id

end BPlusTree

namespace Series

/-- A series at rest (no pending writes): the committed rows in
insertion order.  The three columns are the projections of this list and
the index holds `(rows[i].ts, i)` for every `i`, which is what both the
writer loop (timeseries_db.cpp lines 133-136) and `rebuild_index`
(lines 157-168) establish. -/
def index_of (rows : List Tick) : BPlusTree.BNode :=
  (rows.enum.foldl (fun t p => BPlusTree.insert p.2.ts p.1 t) (.leaf [] []))

/-- `TimeSeriesDB::query_range` (timeseries_db.cpp lines 170-193):
range-query the index, then read price and volume at each returned row
index. -/
def query_range (rows : List Tick) (lo hi : Nat) : List (Nat × Nat × Nat) :=
  (BPlusTree.range_query (index_of rows) lo hi).map
    (fun p => (p.1, (rows.getD p.2 default).price, (rows.getD p.2 default).vol))

/-- `TimeSeriesDB::query_last` (timeseries_db.cpp lines 195-219):
`start_idx = count > n ? count - n : 0`, then read rows
`start_idx..count` from the three columns. -/
def query_last (rows : List Tick) (n : Nat) : List (Nat × Nat × Nat) :=
  let count := rows.length
  let start := if count > n then count - n else 0
  (List.range' start (count - start)).map
    (fun i => ((rows.getD i default).ts, (rows.getD i default).price,
      (rows.getD i default).vol))

end Series

namespace ColumnStorage

/-- `CHUNK_SIZE` (column_storage.hpp line 48). -/
def CHUNK_SIZE : Nat := 4096

/-- `HEADER_SIZE` (column_storage.hpp line 49): `sizeof(size_t)` = 8. -/
def HEADER_SIZE : Nat := 8

/-- The per-growth-step increment `CHUNK_SIZE / element_size`
(column_storage.cpp lines 192 and 237, integer division). -/
def chunk_div (element_size : Nat) : Nat := CHUNK_SIZE / element_size

/-- The state of one `ColumnStorage`.  `data i` is the element stored in
slot `i` of the mapped region (an element is moved only as a whole by
memcpy, so it is modelled by its value); `file_size` is the size the
file was last truncated to, and `mapped_size` the extent of the current
mapping (`remap` maps the whole file, column_storage.cpp lines
142-156). -/
structure Col where
  element_size : Nat
  count : Nat
  capacity : Nat
  file_size : Nat
  mapped_size : Nat
  data : Nat → Nat

/-- The grow-and-remap block of `ColumnStorage::append`
(column_storage.cpp lines 182-204): `new_capacity = capacity +
CHUNK_SIZE/element_size`, falling back to `capacity * 2` when that does
not exceed `capacity`; then ftruncate to `HEADER_SIZE + new_capacity *
element_size` and remap the whole file. -/
def grow_once (c : Col) : Col :=
  let g := c.capacity + chunk_div c.element_size
  let nc := if g ≤ c.capacity then c.capacity * 2 else g
  { c with capacity := nc,
           file_size := HEADER_SIZE + nc * c.element_size,
           mapped_size := HEADER_SIZE + nc * c.element_size }

/-- `ColumnStorage::append` (column_storage.cpp lines 178-212): grow
when `count >= capacity`, then fetch-add `count` to reserve slot `pos`
and copy the element there. -/
def append (c : Col) (v : Nat) : Col :=
  let c := if c.capacity ≤ c.count then grow_once c else c
  let pos := c.count
  { c with count := c.count + 1, data := Function.update c.data pos v }

/-- The growth loop of `ColumnStorage::append_batch` (column_storage.cpp
lines 234-240): starting from `nc = capacity`, repeat `nc += CHUNK_SIZE /
element_size`, with the `capacity * 2` fallback when the sum does not
exceed `capacity`, until `nc` reaches `needed`.  The C++ loop has no
bound; `fuel` makes the transcription total, `none` standing for an
execution that is still looping after `fuel` rounds (for
`element_size > CHUNK_SIZE` the loop never exits, see
`grow_batch_stuck`). -/
def grow_loop (cap cd needed : Nat) : Nat → Nat → Option Nat
  | 0, nc => if nc < needed then none else some nc
  | fuel + 1, nc =>
    if nc < needed then
      grow_loop cap cd needed fuel (if nc + cd ≤ cap then cap * 2 else nc + cd)
    else some nc

/-- `ColumnStorage::append_batch` (column_storage.cpp lines 214-261):
return immediately on an empty batch; otherwise grow until `count +
batch_count` fits, reserve `batch_count` slots at `start_pos = count`,
and copy the block there.  The fuel `c.count + n + 1` is enough for
every terminating run of the growth loop (each round adds at least one
when `chunk_div > 0`). -/
def append_batch (c : Col) (ds : Nat → Nat) (n : Nat) : Option Col :=
  if n = 0 then some c
  else
    let needed := c.count + n
    let grown : Option Col :=
      if c.capacity < needed then
        (grow_loop c.capacity (chunk_div c.element_size) needed (needed + 1)
            c.capacity).map
          (fun nc =>
            { c with capacity := nc,
                     file_size := HEADER_SIZE + nc * c.element_size,
                     mapped_size := HEADER_SIZE + nc * c.element_size })
      else some c
    grown.map (fun c =>
      let start := c.count
      { c with count := c.count + n,
               data := fun i =>
                 if start ≤ i ∧ i < start + n then ds (i - start) else c.data i })

/-- Repeated single appends of `ds 0, ds 1, ..., ds (n-1)`: the writer
loop takes this path for a batch of one tick per column
(timeseries_db.cpp lines 112-118). -/
def append_run (c : Col) (ds : Nat → Nat) : Nat → Col
  | 0 => c
  | n + 1 => append (append_run c ds n) (ds n)

/-- The observable content of a column for the refinement claims: the
logical count together with the bytes of slots `0..count-1` (unused
capacity is reserved but undefined). -/
def observable (c : Col) : Nat × List Nat :=
  (c.count, (List.range c.count).map c.data)

/-- Error kind of the constructor path. -/
inductive OpenErr where
  | corruptHeader
deriving DecidableEq

/-- The outcome of opening an existing file. -/
structure Opened where
  element_size : Nat
  count : Nat
  capacity : Nat
  file_size : Nat
deriving DecidableEq

/-- The existing-file branch of the `ColumnStorage` constructor
(column_storage.cpp lines 53-65): reject only a file smaller than the
8-byte header; otherwise derive `capacity` from the file size, remap,
and adopt whatever count the header stores (`read_header`, lines
168-176) without validating it. -/
def open_existing (esz file_size stored_count : Nat) : Except OpenErr Opened :=
  if file_size < HEADER_SIZE then .error .corruptHeader
  else .ok { element_size := esz, count := stored_count,
             capacity := (file_size - HEADER_SIZE) / esz, file_size := file_size }

end ColumnStorage

namespace Pub

/-- The atomic actions of `ColumnStorage::append` on shared memory, in
the program order of column_storage.cpp lines 180-211 (fast path,
`count < capacity`): load `count`; `count.fetch_add(1, acq_rel)`, which
both reserves slot `pos` and publishes the incremented count; memcpy of
the element into slot `pos`; the asynchronous msync hint. -/
inductive Act where
  | loadCount
  | fetchAdd
  | copyPayload
  | msyncHint
deriving DecidableEq

/-- `append` body in source order (column_storage.cpp lines 180, 207,
209, 211). -/
def append_order : List Act := [.loadCount, .fetchAdd, .copyPayload, .msyncHint]

/-- Shared memory visible to a concurrent reader: the published count
and the slot contents. -/
structure Mem where
  count : Nat
  slot : Nat → Nat
deriving Inhabited

/-- Effect of each writer action on shared memory; `pos`, the local
value returned by the fetch-add, is `count` at that moment, and the
copy targets slot `pos` (column_storage.cpp lines 207-209).  The
initial memory of the scenario below has `count = 0`, so `pos = 0`. -/
def run_act (payload : Nat) : Act → Mem → Mem
  | .loadCount, m => m
  | .fetchAdd, m => { m with count := m.count + 1 }
  | .copyPayload, m => { m with slot := Function.update m.slot (m.count - 1) payload }
  | .msyncHint, m => m

/-- Execute a prefix of the append body. -/
def run_prefix (payload : Nat) (k : Nat) (m : Mem) : Mem :=
  (append_order.take k).foldl (fun m a => run_act payload a m) m

end Pub

namespace Writer

/-- `BATCH_SIZE` (timeseries_db.cpp line 78). -/
def BATCH_SIZE : Nat := 1000

/-- The writer loop (timeseries_db.cpp lines 60-155) during an
execution in which `stop_writer` holds the constant value `stop`: the
destructor stores `true` once and nothing ever clears the flag, so from
the moment the store is visible the loop runs with `stop = true`.  Each
iteration re-tests `while (!stop_writer)` first (line 62): when the
flag is set the loop exits at once, leaving whatever is still queued
unprocessed.  With the flag clear, `cv.wait` returns only once the
queue is non-empty (no producer runs during teardown, modelled by
`none` = blocked forever); the `stop && empty` break of line 72 is
unreachable with `stop = false`.  Then up to `BATCH_SIZE` ticks are
drained and committed.  The result is `(committed batches flattened,
ticks left in the queue)`; `fuel` bounds the number of iterations and
one unit per `BATCH_SIZE` ticks plus one is always enough. -/
def writer_loop (stop : Bool) : Nat → List Tick → Option (List Tick × List Tick)
  | 0, _ => none
  | fuel + 1, q =>
    if stop then some ([], q)
    else if q.isEmpty then none
    else
      match writer_loop stop fuel (q.drop BATCH_SIZE) with
      | none => none
      | some r => some (q.take BATCH_SIZE ++ r.1, r.2)

end Writer

namespace Sync

/-- Global state of the write pipeline of one series, at the
granularity of its atomic actions (timeseries_db.cpp):

* `enq` — ghost log of every tick whose producer has executed the
  `pending_writes.fetch_add` of `append` / `append_batch` (lines 34,
  47);
* `prepush` — ticks counted in `pending_writes` but not yet pushed to
  the queue (between lines 34 and 39 of `append`);
* `queue` — `write_queue`;
* `inflight` — the batch the writer has moved out of the queue (lines
  79-83) and not yet committed;
* `committed` — rows appended to the three columns and inserted into
  the index (lines 111-135);
* `pending` — `pending_writes`. -/
structure St where
  enq : List Tick
  prepush : List Tick
  queue : List Tick
  inflight : List Tick
  committed : List Tick
  pending : Nat
deriving DecidableEq

/-- The initial state of a freshly opened series with an empty
directory. -/
def init : St := ⟨[], [], [], [], [], 0⟩

/-- One atomic step of a producer or of the writer thread.

* `enq_count`: the `pending_writes.fetch_add` of `append` (line 34),
  before the queue push;
* `enq_push`: the push under the queue mutex (lines 37-40); any tick
  counted but not yet pushed may be the one pushed, producers being
  unordered among themselves;
* `drain`: the writer moves up to `BATCH_SIZE` ticks out of the queue
  under the queue lock (lines 79-83);
* `commit`: under the exclusive lock the writer appends the batch to
  the three columns, inserts the index entries, and only then does
  `pending_writes.fetch_sub(batch.size())` (lines 90-145). -/
inductive Step : St → St → Prop
  | enq_count (s : St) (t : Tick) :
      Step s { s with enq := s.enq ++ [t], prepush := s.prepush ++ [t],
                      pending := s.pending + 1 }
  | enq_push (s : St) (t : Tick) (l r : List Tick) :
      s.prepush = l ++ t :: r →
      Step s { s with prepush := l ++ r, queue := s.queue ++ [t] }
  | drain (s : St) :
      s.queue ≠ [] → s.inflight = [] →
      Step s { s with queue := s.queue.drop Writer.BATCH_SIZE,
                      inflight := s.queue.take Writer.BATCH_SIZE }
  | commit (s : St) :
      s.inflight ≠ [] →
      Step s { s with committed := s.committed ++ s.inflight,
                      inflight := [],
                      pending := s.pending - s.inflight.length }

/-- States reachable from the initial state. -/
inductive Reachable : St → Prop
  | init : Reachable init
  | step {s s1 : St} : Reachable s → Step s s1 → Reachable s1

/-- The accounting invariant of the pipeline: `pending_writes` counts
exactly the ticks that are counted-but-unpushed, queued, or in flight,
and the ghost log of enqueued ticks splits into committed plus those
three groups (as a multiset: producers may interleave their pushes). -/
def Inv (s : St) : Prop :=
  s.pending = s.prepush.length + s.queue.length + s.inflight.length ∧
    s.enq.Perm (s.committed ++ s.inflight ++ s.queue ++ s.prepush)

end Sync

namespace BPlusTree

/-!
The claim on node shape is settled on the insert sequence that inserts
key 7 (value 0) over and over, starting from the empty tree.  Because
every key is equal, all the lists in the evolving tree are uniform and
the whole evolution can be followed symbolically:

* stage 1 -- the root is a leaf gathering up to 63 pairs; the 64th
  insert splits it;
* stage 2 (`stage2 b j`) -- the root is internal with `b` separators,
  `b` full leaves of 32 pairs and a rightmost leaf with `j` pairs;
  every 32 inserts the rightmost leaf splits and `b` grows by one, and
  when `b` reaches 64 the root splits (`split_internal_root`);
* stage 3 (`stage3 b j`) -- the root holds one separator over two
  internal children: a fixed left child (`bigA`, 32 separators) and a
  right child of `stage2 b j` shape.  The right child is not the root,
  so when it reaches `ORDER` keys, `split_internal` does nothing (the
  TODO of bplus_tree.hpp lines 220-223) and `b` keeps growing past the
  bound forever.
-/

/-- A leaf holding `j` copies of key 7 (value 0). -/
def leafJ (j : Nat) : BNode := .leaf (List.replicate j 7) (List.replicate j 0)

/-- The full 32-pair leaf produced by every split. -/
def l32 : BNode := leafJ 32

/-- Stage-2 shape: internal node with `b` separators, `b` full leaves
and a rightmost leaf of `j` pairs. -/
def stage2 (b j : Nat) : BNode :=
  .internal (List.replicate b 7) (List.replicate b l32 ++ [leafJ j])

/-- The left child created by the root split. -/
def bigA : BNode := .internal (List.replicate 32 7) (List.replicate 33 l32)

/-- Stage-3 shape: height-3 tree whose right internal child has the
stage-2 shape and is no longer the root. -/
def stage3 (b j : Nat) : BNode := .internal [7] [bigA, stage2 b j]

end BPlusTree

namespace ColumnStorage

/-- The properties of the grown column reached by `append_batch` when
growth was needed; see `c4_growth_policy`. -/
def batch_growth_ok (c : Col) (n : Nat) (b : Col) : Prop :=
  c.count + n ≤ b.capacity ∧
    b.capacity < c.count + n + chunk_div c.element_size ∧
    chunk_div c.element_size ∣ (b.capacity - c.capacity) ∧
    b.file_size = HEADER_SIZE + b.capacity * c.element_size ∧
    b.mapped_size = b.file_size

end ColumnStorage

/-- A column state reached after one growth of a fresh 8-byte-element
column (capacities 512 then 1024), now full again. -/
def c4col : ColumnStorage.Col :=
  { element_size := 8, count := 1024, capacity := 1024,
    file_size := 8 + 1024 * 8, mapped_size := 8 + 1024 * 8, data := fun _ => 0 }

/-- A full column with `element_size = 4097 > CHUNK_SIZE`, so the chunk
increment `4096 / 4097` is zero: exercises the `capacity * 2` fallback
branches of the growth policy (reachable: a fresh 4097-byte-element
column has capacity 1, and one append fills it). -/
def c4colB : ColumnStorage.Col :=
  { element_size := 4097, count := 1, capacity := 1,
    file_size := 8 + 4097, mapped_size := 8 + 4097, data := fun _ => 0 }

/-- The series content for the C1 counterexample: 64 rows whose
timestamps are 0,...,30,31,31,32,...,62 (row 31 and row 32 share
timestamp 31), with distinguishable prices `100 + i` and volumes
`200 + i`. -/
def c1rows : List Tick :=
  (List.range 64).map (fun i => ⟨if i ≤ 31 then i else i - 1, 100 + i, 200 + i⟩)

/-- A reachable column with `element_size = 4097 > CHUNK_SIZE`: created
fresh (capacity `max(4096/4097, 1) = 1`) and holding one appended
element. -/
def c9bad : ColumnStorage.Col :=
  { element_size := 4097, count := 1, capacity := 1,
    file_size := 8 + 4097, mapped_size := 8 + 4097, data := fun _ => 0 }


namespace ColumnStorage

/-- When the loop target is already met, the growth loop exits at once
with the current value, whatever the fuel. -/
theorem grow_loop_done (cap cd needed nc : Nat) (h : needed ≤ nc) :
    ∀ fuel, grow_loop cap cd needed fuel nc = some nc := by
  intro fuel
  cases fuel with
  | zero => simp [grow_loop, Nat.not_lt.mpr h]
  | succ m => simp [grow_loop, Nat.not_lt.mpr h]

/-- With a positive chunk increment the growth loop terminates, and its
result is the first iterate of `+ cd` from `nc` that reaches `needed`:
at least `needed`, less than one increment past it, and congruent to
the start modulo the increment. -/
theorem grow_loop_spec (cap cd needed : Nat) (hcd : 1 ≤ cd) :
    ∀ fuel nc, cap ≤ nc → nc < needed → needed ≤ nc + fuel * cd →
      ∃ r, grow_loop cap cd needed fuel nc = some r ∧
        needed ≤ r ∧ r < needed + cd ∧ cd ∣ (r - nc) := by
  intro fuel
  induction fuel with
  | zero => intro nc _ hlt hle; omega
  | succ m ih =>
    intro nc hcap hlt hle
    have hg : ¬ (nc + cd ≤ cap) := by omega
    rw [grow_loop, if_pos hlt, if_neg hg]
    by_cases hdone : needed ≤ nc + cd
    · exact ⟨nc + cd, grow_loop_done _ _ _ _ hdone m, hdone, by omega, by simp⟩
    · obtain ⟨r, hr, h1, h2, k, hk⟩ := ih (nc + cd) (by omega) (by omega)
        (by have := hle; rw [Nat.succ_mul] at this; omega)
      refine ⟨r, hr, h1, h2, k + 1, ?_⟩
      have : nc + cd ≤ r := by omega
      rw [Nat.mul_add, Nat.mul_one, ← hk]
      omega

/-- Sufficient fuel for the call site of `append_batch`: starting at
`capacity` with target `count + n`, fuel `count + n + 1` is enough. -/
theorem grow_loop_fuel_enough (cap cd needed : Nat) (hcd : 1 ≤ cd) (hlt : cap < needed) :
    ∃ r, grow_loop cap cd needed (needed + 1) cap = some r ∧
      needed ≤ r ∧ r < needed + cd ∧ cd ∣ (r - cap) := by
  refine grow_loop_spec cap cd needed hcd (needed + 1) cap (Nat.le_refl _) hlt ?_
  have h1 : needed + 1 ≤ (needed + 1) * cd := Nat.le_mul_of_pos_right _ (by omega)
  omega

/-- With a zero chunk increment and the target within the doubled
capacity, the growth loop takes the `capacity * 2` fallback once and
exits with it. -/
theorem grow_loop_cd_zero_fallback (cap needed : Nat) (h1 : cap < needed)
    (h2 : needed ≤ cap * 2) :
    ∀ fuel, grow_loop cap 0 needed (fuel + 1) cap = some (cap * 2) := by
  intro fuel
  rw [grow_loop, if_pos h1, Nat.add_zero, if_pos (Nat.le_refl _)]
  exact grow_loop_done cap 0 needed (cap * 2) h2 fuel

/-- Degenerate zero-capacity case of the stagnating loop: the value
stays 0 forever. -/
theorem grow_loop_zero_zero (needed : Nat) (h : 0 < needed) :
    ∀ fuel, grow_loop 0 0 needed fuel 0 = none := by
  intro fuel
  induction fuel with
  | zero => simp [grow_loop, h]
  | succ m ih =>
    rw [grow_loop, if_pos h, Nat.add_zero, if_pos (Nat.le_refl _)]
    simpa using ih

/-- Once the running value exceeds `cap` while the increment is zero,
the growth loop makes no progress: it loops forever (every fuel returns
`none`). -/
theorem grow_loop_stuck (cap needed nc : Nat) (h1 : cap < nc) (h2 : nc < needed) :
    ∀ fuel, grow_loop cap 0 needed fuel nc = none := by
  intro fuel
  induction fuel with
  | zero => simp [grow_loop, h2]
  | succ m ih =>
    rw [grow_loop, if_pos h2, Nat.add_zero, if_neg (by omega)]
    exact ih

/-- With a zero chunk increment and a target beyond the doubled
capacity, the growth loop never reaches it: after the one fallback to
`capacity * 2` the value never changes again, so every fuel returns
`none` -- the C++ loop of column_storage.cpp lines 235-240 never
exits. -/
theorem grow_loop_cd_zero_diverges (cap needed : Nat) (h : cap * 2 < needed) :
    ∀ fuel, grow_loop cap 0 needed fuel cap = none := by
  intro fuel
  cases fuel with
  | zero => simp [grow_loop]; omega
  | succ m =>
    rw [grow_loop, if_pos (by omega), Nat.add_zero, if_pos (Nat.le_refl _)]
    by_cases hc : cap = 0
    · subst hc
      simpa using grow_loop_zero_zero needed (by omega) m
    · exact grow_loop_stuck cap needed (cap * 2) (by omega) (by omega) m

end ColumnStorage

/-- C10: `append_batch` with `batch_count = 0` returns at once
(column_storage.cpp lines 216-217) leaving the whole column state --
count, capacity, file size, mapping and every stored slot --
unchanged. -/
theorem c10_append_batch_zero_noop (c : ColumnStorage.Col) (ds : Nat → Nat) :
    ColumnStorage.append_batch c ds 0 = some c := rfl

/-- C7 counterexample: a column file of 16 bytes (capacity 1 slot of 8
bytes) whose header stores count 5 > capacity is accepted by the
constructor, which adopts count 5; the claim says this must fail with
CorruptHeader. -/
theorem c7_counterexample :
    ColumnStorage.open_existing 8 16 5 =
      .ok { element_size := 8, count := 5, capacity := 1, file_size := 16 } ∧
      ({ element_size := 8, count := 5, capacity := 1, file_size := 16 } :
        ColumnStorage.Opened).capacity <
      ({ element_size := 8, count := 5, capacity := 1, file_size := 16 } :
        ColumnStorage.Opened).count := by
  constructor
  · rfl
  · decide

/-- C7 (amended): opening a column on an existing file fails with
CorruptHeader exactly when the file is smaller than the 8-byte header;
otherwise it succeeds, derives capacity from the file size, and adopts
the stored count without validating it against the capacity
(column_storage.cpp lines 53-65). -/
theorem c7_open_existing_header_check (esz fs sc : Nat) :
    (fs < 8 → ColumnStorage.open_existing esz fs sc = .error .corruptHeader) ∧
    (8 ≤ fs → ColumnStorage.open_existing esz fs sc =
      .ok { element_size := esz, count := sc, capacity := (fs - 8) / esz,
            file_size := fs }) := by
  constructor
  · intro h
    simp [ColumnStorage.open_existing, ColumnStorage.HEADER_SIZE, h]
  · intro h
    simp [ColumnStorage.open_existing, ColumnStorage.HEADER_SIZE, Nat.not_lt.mpr h]

/-- Witness for C7 at two concrete files: a 4-byte file is rejected, a
16-byte file with stored count 5 is accepted as is. -/
theorem c7_open_existing_header_check_witness :
    ((4 : Nat) < 8 ∧ ColumnStorage.open_existing 8 4 0 = .error .corruptHeader) ∧
    ((8 : Nat) ≤ 16 ∧ ColumnStorage.open_existing 8 16 5 =
      .ok { element_size := 8, count := 5, capacity := 1, file_size := 16 }) :=
  ⟨⟨by decide, (c7_open_existing_header_check 8 4 0).1 (by decide)⟩,
   ⟨by decide, (c7_open_existing_header_check 8 16 5).2 (by decide)⟩⟩

/-- C4 counterexample: on a full column with capacity 1024 and element
size 8, `append` grows to `capacity + 4096/8 = 1536`, not to
`max(capacity + 4096/8, capacity*2, required) = 2048` as the claim
states (column_storage.cpp lines 191-194 grow by one chunk, with the
doubling only as fallback when the chunk adds nothing). -/
theorem c4_counterexample :
    (ColumnStorage.append c4col 5).capacity ≠
      max (max (c4col.capacity + ColumnStorage.CHUNK_SIZE / c4col.element_size)
        (c4col.capacity * 2)) (c4col.count + 1) := by
  decide

/-- C4 (amended): whenever growth triggers, `append` (trigger
`count >= capacity`, column_storage.cpp line 182) grows by exactly one
chunk `4096 / element_size`, falling back to `capacity * 2` when the
increment is zero (`element_size > 4096`); in both cases the file is
truncated to `8 + new_capacity * element_size` and the whole file is
remapped.  `append_batch` (trigger `count + N > capacity`, line 222,
also from partially filled columns) adds the chunk increment repeatedly
until `count + N` fits, so its new capacity is the first iterate of
`+ 4096/element_size` from `capacity` reaching `count + N`
(`batch_growth_ok`); when the increment is zero its loop doubles once,
exits with `capacity * 2` if that fits, and otherwise never exits
(`grow_loop_cd_zero_diverges`), modelled by `none`. -/
theorem c4_growth_policy (c : ColumnStorage.Col) (v : Nat) (ds : Nat → Nat) (n : Nat) :
    (c.capacity ≤ c.count →
      (1 ≤ ColumnStorage.chunk_div c.element_size →
        (ColumnStorage.append c v).capacity =
          c.capacity + ColumnStorage.chunk_div c.element_size) ∧
      (ColumnStorage.chunk_div c.element_size = 0 →
        (ColumnStorage.append c v).capacity = c.capacity * 2) ∧
      (ColumnStorage.append c v).file_size =
        8 + (ColumnStorage.append c v).capacity * c.element_size ∧
      (ColumnStorage.append c v).mapped_size = (ColumnStorage.append c v).file_size) ∧
    (1 ≤ n → c.capacity < c.count + n →
      (1 ≤ ColumnStorage.chunk_div c.element_size →
        (ColumnStorage.append_batch c ds n).elim False
          (ColumnStorage.batch_growth_ok c n)) ∧
      (ColumnStorage.chunk_div c.element_size = 0 →
        c.count + n ≤ c.capacity * 2 →
        (ColumnStorage.append_batch c ds n).elim False
          (fun b => b.capacity = c.capacity * 2 ∧
            b.file_size = 8 + b.capacity * c.element_size ∧
            b.mapped_size = b.file_size)) ∧
      (ColumnStorage.chunk_div c.element_size = 0 →
        c.capacity * 2 < c.count + n →
        ColumnStorage.append_batch c ds n = none)) := by
  constructor
  · intro hfull
    refine ⟨?_, ?_, ?_, ?_⟩
    · intro hcd
      have hg : ¬ (c.capacity + ColumnStorage.chunk_div c.element_size ≤ c.capacity) := by
        omega
      simp [ColumnStorage.append, ColumnStorage.grow_once, hfull, hg]
    · intro hcd
      simp [ColumnStorage.append, ColumnStorage.grow_once, hfull, hcd]
    · simp [ColumnStorage.append, ColumnStorage.grow_once, hfull,
        ColumnStorage.HEADER_SIZE]
    · simp [ColumnStorage.append, ColumnStorage.grow_once, hfull]
  · intro hn hcap
    have hne : n ≠ 0 := by omega
    refine ⟨?_, ?_, ?_⟩
    · intro hcd
      obtain ⟨r, hr, h1, h2, h3⟩ :=
        ColumnStorage.grow_loop_fuel_enough c.capacity
          (ColumnStorage.chunk_div c.element_size) (c.count + n) hcd hcap
      simp [ColumnStorage.append_batch, hne, hcap, hr, ColumnStorage.batch_growth_ok,
        ColumnStorage.HEADER_SIZE]
      exact ⟨h1, by omega, h3⟩
    · intro hcd hfit
      have hr := ColumnStorage.grow_loop_cd_zero_fallback c.capacity (c.count + n)
        hcap hfit (c.count + n)
      simp [ColumnStorage.append_batch, hne, hcap, hcd, hr, ColumnStorage.HEADER_SIZE]
    · intro hcd hbig
      have hr := ColumnStorage.grow_loop_cd_zero_diverges c.capacity (c.count + n)
        hbig (c.count + n + 1)
      simp [ColumnStorage.append_batch, hne, hcap, hcd, hr]

/-- Witness for C4 at two concrete full columns: `c4col` (element size
8, chunk increment 512) exercises the chunked branches of append and
append_batch; `c4colB` (element size 4097, chunk increment 0)
exercises the doubling fallback of append, of append_batch when the
doubled capacity fits, and the non-terminating growth loop when it
does not. -/
theorem c4_growth_policy_witness :
    (c4col.capacity ≤ c4col.count ∧
      1 ≤ ColumnStorage.chunk_div c4col.element_size ∧
      (ColumnStorage.append c4col 5).capacity =
        c4col.capacity + ColumnStorage.chunk_div c4col.element_size ∧
      (ColumnStorage.append c4col 5).file_size =
        8 + (ColumnStorage.append c4col 5).capacity * c4col.element_size ∧
      (ColumnStorage.append c4col 5).mapped_size =
        (ColumnStorage.append c4col 5).file_size) ∧
    ((1 : Nat) ≤ 1 ∧ c4col.capacity < c4col.count + 1 ∧
      (ColumnStorage.append_batch c4col (fun i => i) 1).elim False
        (ColumnStorage.batch_growth_ok c4col 1)) ∧
    (c4colB.capacity ≤ c4colB.count ∧
      ColumnStorage.chunk_div c4colB.element_size = 0 ∧
      (ColumnStorage.append c4colB 5).capacity = c4colB.capacity * 2) ∧
    (c4colB.capacity < c4colB.count + 1 ∧ c4colB.count + 1 ≤ c4colB.capacity * 2 ∧
      (ColumnStorage.append_batch c4colB (fun i => i) 1).elim False
        (fun b => b.capacity = c4colB.capacity * 2 ∧
          b.file_size = 8 + b.capacity * c4colB.element_size ∧
          b.mapped_size = b.file_size)) ∧
    (c4colB.capacity * 2 < c4colB.count + 2 ∧
      ColumnStorage.append_batch c4colB (fun i => i) 2 = none) :=
  ⟨⟨by decide, by decide,
    ((c4_growth_policy c4col 5 (fun i => i) 1).1 (by decide)).1 (by decide),
    ((c4_growth_policy c4col 5 (fun i => i) 1).1 (by decide)).2.2.1,
    ((c4_growth_policy c4col 5 (fun i => i) 1).1 (by decide)).2.2.2⟩,
   ⟨by decide, by decide,
    ((c4_growth_policy c4col 5 (fun i => i) 1).2 (by decide) (by decide)).1 (by decide)⟩,
   ⟨by decide, by decide,
    ((c4_growth_policy c4colB 5 (fun i => i) 1).1 (by decide)).2.1 (by decide)⟩,
   ⟨by decide, by decide,
    ((c4_growth_policy c4colB 5 (fun i => i) 1).2 (by decide) (by decide)).2.1
      (by decide) (by decide)⟩,
   ⟨by decide,
    ((c4_growth_policy c4colB 5 (fun i => i) 2).2 (by decide) (by decide)).2.2
      (by decide) (by decide)⟩⟩

/-- C5: in `ColumnStorage::append` the count-publishing store comes
BEFORE the payload copy, not after it as the claim states: the
`fetch_add` on `count` (column_storage.cpp line 207) precedes the
memcpy into the slot (line 209) in program order.  Consequently a
reader interleaved between the two (here: after the first two actions
of the append body, starting from an empty column) observes
`count = 1` while slot 0 still holds the old bytes, violating the
publication contract the claim asserts. -/
theorem c5_count_published_before_copy :
    Pub.append_order.indexOf .fetchAdd < Pub.append_order.indexOf .copyPayload ∧
    (Pub.run_prefix 7 2 ⟨0, fun _ => 0⟩).count = 1 ∧
    (Pub.run_prefix 7 2 ⟨0, fun _ => 0⟩).slot 0 ≠ 7 := by
  refine ⟨by decide, rfl, by decide⟩

/-- C2: with the stop flag set (as the destructor does,
timeseries_db.cpp lines 18-27) and one tick still queued, the writer
loop exits immediately -- the `while (!stop_writer)` head test of line
62 fires before the queue is examined -- committing nothing and
leaving the tick in the queue, so it is lost at teardown; the claim
requires it to be drained. -/
theorem c2_writer_exits_without_draining :
    Writer.writer_loop true 1 [⟨5, 10, 2⟩] = some ([], [⟨5, 10, 2⟩]) := rfl

set_option maxRecDepth 20000 in
/-- C1: `query_range(31, 31)` on the series holding `c1rows` returns a
single row although two rows carry timestamp 31.  The 64th insert
splits the root leaf between the two duplicates (bplus_tree.hpp lines
136-161), promoting 31 as the separator; `find_leaf(31)` then descends
past the separator with `upper_bound` (line 100) into the right leaf,
so the duplicate left in the left leaf is never reached by the forward
walk.  The claim that the result is the full multiset of rows in
`[lo, hi]` fails (and with it scenario 4 of the specification when
extended across a split). -/
theorem c1_range_query_loses_duplicate :
    Series.query_range c1rows 31 31 = [(31, 131, 231)] ∧
    (c1rows.filter (fun r => decide (31 ≤ r.ts) && decide (r.ts ≤ 31))).length = 2 := by
  decide

/-- C8: `query_last n` returns exactly the last `min n count` rows of
the series, in insertion order: the suffix `rows.drop (count - n)`
projected to result tuples.  In particular `query_last 0 = []` and
`n ≥ count` returns every row (timeseries_db.cpp lines 195-219). -/
theorem c8_query_last_returns_suffix (rows : List Tick) (n : Nat) :
    Series.query_last rows n =
      (rows.drop (rows.length - n)).map (fun r => (r.ts, r.price, r.vol)) ∧
    (Series.query_last rows n).length = min n rows.length := by
  have hstart : (if rows.length > n then rows.length - n else 0) = rows.length - n := by
    split <;> omega
  have hmain : Series.query_last rows n =
      (rows.drop (rows.length - n)).map (fun r => (r.ts, r.price, r.vol)) := by
    simp only [Series.query_last]
    rw [hstart]
    apply List.ext_getElem
    · simp
    · intro i h1 h2
      simp only [List.getElem_map, List.getElem_range', List.getElem_drop, Nat.one_mul]
      have hib : rows.length - n + i < rows.length := by
        simp at h1
        omega
      rw [List.getD_eq_getElem rows default hib]
  refine ⟨hmain, ?_⟩
  rw [hmain]
  simp
  omega

namespace ColumnStorage

/-- `append` always advances the count by exactly one and writes the
element into the slot it reserved; growth touches only capacity, file
size and mapping. -/
theorem append_spec (c : Col) (v : Nat) :
    (append c v).count = c.count + 1 ∧
      (append c v).data = Function.update c.data c.count v := by
  by_cases h : c.capacity ≤ c.count <;> simp [append, grow_once, h]

/-- Characterization of `n` successive appends: the count advances by
`n` and slots `count..count+n-1` receive `ds 0, ..., ds (n-1)`. -/
theorem append_run_spec (c : Col) (ds : Nat → Nat) : ∀ n,
    (append_run c ds n).count = c.count + n ∧
    ∀ i, (append_run c ds n).data i =
      if c.count ≤ i ∧ i < c.count + n then ds (i - c.count) else c.data i := by
  intro n
  induction n with
  | zero =>
    refine ⟨rfl, fun i => ?_⟩
    rw [if_neg (by omega)]
    rfl
  | succ m ih =>
    obtain ⟨ihc, ihd⟩ := ih
    obtain ⟨hc, hd⟩ := append_spec (append_run c ds m) (ds m)
    refine ⟨by rw [append_run, hc, ihc, Nat.add_assoc], fun i => ?_⟩
    rw [append_run, hd, ihc, Function.update_apply, ihd]
    by_cases hi : i = c.count + m
    · simp [hi]
    · rw [if_neg hi]
      by_cases hr : c.count ≤ i ∧ i < c.count + m
      · rw [if_pos hr, if_pos (by omega)]
      · rw [if_neg hr, if_neg (by omega)]

/-- With a positive chunk increment, `append_batch` always returns, the
count advances by `n`, and slots `count..count+n-1` receive the batch
elements. -/
theorem append_batch_spec (c : Col) (ds : Nat → Nat) (n : Nat)
    (hcd : 1 ≤ chunk_div c.element_size) :
    ∃ b, append_batch c ds n = some b ∧ b.count = c.count + n ∧
      ∀ i, b.data i =
        if c.count ≤ i ∧ i < c.count + n then ds (i - c.count) else c.data i := by
  by_cases hn : n = 0
  · subst hn
    refine ⟨c, rfl, rfl, fun i => ?_⟩
    rw [if_neg (by omega)]
  · by_cases hcap : c.capacity < c.count + n
    · obtain ⟨r, hr, -, -, -⟩ :=
        grow_loop_fuel_enough c.capacity (chunk_div c.element_size) (c.count + n) hcd hcap
      simp only [append_batch, if_neg hn, if_pos hcap, hr, Option.map_some]
      exact ⟨_, rfl, rfl, fun i => rfl⟩
    · simp only [append_batch, if_neg hn, if_neg hcap, Option.map_some]
      exact ⟨_, rfl, rfl, fun i => rfl⟩

end ColumnStorage

/-- C9 (amended): for every column whose element size is at most the
4 KiB chunk (so the growth increment `4096 / element_size` is nonzero --
this covers the three 8-byte columns of the series), one
`append_batch(data, N)` leaves the same observable state (count and
slot contents) as `N` successive `append` calls on the same elements.
For `element_size > 4096` the growth loop of `append_batch` never
terminates (see `c9_counterexample`), while repeated `append` succeeds
through its doubling fallback. -/
theorem c9_batch_equals_appends (c : ColumnStorage.Col) (ds : Nat → Nat) (n : Nat)
    (hcd : 1 ≤ ColumnStorage.chunk_div c.element_size) :
    (ColumnStorage.append_batch c ds n).map ColumnStorage.observable =
      some (ColumnStorage.observable (ColumnStorage.append_run c ds n)) := by
  obtain ⟨b, hb, hbc, hbd⟩ := ColumnStorage.append_batch_spec c ds n hcd
  obtain ⟨hrc, hrd⟩ := ColumnStorage.append_run_spec c ds n
  rw [hb]
  simp only [Option.map_some']
  unfold ColumnStorage.observable
  rw [hbc, hrc]
  refine congrArg some (congrArg (Prod.mk (c.count + n)) ?_)
  apply List.map_congr_left
  intro i _
  rw [hbd i, hrd i]

/-- Witness for C9: a fresh 8-byte-element column and a batch of three
elements. -/
theorem c9_batch_equals_appends_witness :
    (1 : Nat) ≤ ColumnStorage.chunk_div 8 ∧
    (let c : ColumnStorage.Col :=
      { element_size := 8, count := 0, capacity := 512,
        file_size := 8 + 512 * 8, mapped_size := 8 + 512 * 8, data := fun _ => 0 }
     (ColumnStorage.append_batch c (fun i => 10 + i) 3).map ColumnStorage.observable =
      some (ColumnStorage.observable (ColumnStorage.append_run c (fun i => 10 + i) 3))) :=
  ⟨by decide, c9_batch_equals_appends _ (fun i => 10 + i) 3 (by decide)⟩

namespace ColumnStorage

/-- The concrete growth loop reached by `append_batch` on a column with
`element_size = 4097`, `capacity = 1`, `count = 1` and a batch of two:
`new_capacity` goes `1 -> 2` (doubling fallback) and then stays at `2 <
3` forever -- the C++ loop of column_storage.cpp lines 235-240 never
exits. -/
theorem grow_batch_stuck : ∀ fuel, grow_loop 1 0 3 fuel 1 = none := by
  intro fuel
  cases fuel with
  | zero => simp [grow_loop]
  | succ m =>
    rw [grow_loop, if_pos (by omega), Nat.add_zero, if_pos (by omega)]
    exact grow_loop_stuck 1 3 2 (by omega) (by omega) m

end ColumnStorage

/-- C9 counterexample: on `c9bad`, `append_batch` of two elements
diverges in its growth loop (modelled by `none` at the transcription
fuel; `grow_batch_stuck` shows every fuel gives `none`), whereas two
successive `append` calls succeed via the doubling fallback -- so the
claimed equivalence fails for this column state. -/
theorem c9_counterexample :
    (ColumnStorage.append_batch c9bad (fun i => i) 2).map ColumnStorage.observable ≠
      some (ColumnStorage.observable (ColumnStorage.append_run c9bad (fun i => i) 2)) := by
  decide

namespace Sync

theorem inv_init : Inv init := by
  constructor <;> simp [init, Inv]

theorem inv_step {s s1 : St} (h : Inv s) (hs : Step s s1) : Inv s1 := by
  obtain ⟨hlen, hperm⟩ := h
  cases hs with
  | enq_count t =>
    refine ⟨by simp [hlen]; omega, ?_⟩
    refine (hperm.append_right [t]).trans ?_
    rw [← Multiset.coe_eq_coe]
    simp only [← Multiset.coe_add]
    abel
  | enq_push t l r hp =>
    constructor
    · show s.pending = (l ++ r).length + (s.queue ++ [t]).length + s.inflight.length
      rw [hp] at hlen
      simp only [List.length_append, List.length_cons, List.length_nil] at hlen ⊢
      omega
    · rw [hp] at hperm
      rw [show t :: r = [t] ++ r from rfl] at hperm
      refine hperm.trans ?_
      rw [← Multiset.coe_eq_coe]
      simp only [← Multiset.coe_add]
      abel
  | drain hq hi =>
    constructor
    · show s.pending = s.prepush.length + (s.queue.drop Writer.BATCH_SIZE).length +
        (s.queue.take Writer.BATCH_SIZE).length
      rw [hi] at hlen
      simp only [List.length_drop, List.length_take, List.length_nil] at hlen ⊢
      omega
    · rw [hi] at hperm
      refine hperm.trans ?_
      rw [← Multiset.coe_eq_coe]
      simp only [← Multiset.coe_add]
      rw [show (s.queue : Multiset Tick) =
        ↑(s.queue.take Writer.BATCH_SIZE) + ↑(s.queue.drop Writer.BATCH_SIZE) by
          rw [Multiset.coe_add, List.take_append_drop]]
      abel
  | commit hi =>
    constructor
    · show s.pending - s.inflight.length =
        s.prepush.length + s.queue.length + ([] : List Tick).length
      simp only [List.length_nil]
      omega
    · refine hperm.trans ?_
      rw [← Multiset.coe_eq_coe]
      simp only [← Multiset.coe_add]
      abel

theorem inv_reachable {s : St} (h : Reachable s) : Inv s := by
  induction h with
  | init => exact inv_init
  | step _ hs ih => exact inv_step ih hs

end Sync

/-- C6: in every reachable state of the write pipeline in which
`pending_writes = 0` -- the condition under which the wait in
`TimeSeriesDB::sync` (timeseries_db.cpp lines 227-229) lets `sync`
return -- the multiset of committed rows equals the multiset of all
ticks ever enqueued: every tick enqueued before the `sync` call has
been appended to the three columns and inserted into the index by the
commit step that decremented the counter. -/
theorem c6_sync_returns_only_when_committed (s : Sync.St)
    (hr : Sync.Reachable s) (h0 : s.pending = 0) : s.enq.Perm s.committed := by
  obtain ⟨hlen, hperm⟩ := Sync.inv_reachable hr
  have hp : s.prepush = [] := List.eq_nil_of_length_eq_zero (by omega)
  have hq : s.queue = [] := List.eq_nil_of_length_eq_zero (by omega)
  have hi : s.inflight = [] := List.eq_nil_of_length_eq_zero (by omega)
  rw [hp, hq, hi] at hperm
  simpa using hperm

/-- Witness for C6: one tick flows through enqueue-count, push, drain
and commit; in the resulting state `pending = 0` and the tick is
committed. -/
theorem c6_sync_returns_only_when_committed_witness :
    (⟨[⟨1, 2, 3⟩], [], [], [], [⟨1, 2, 3⟩], 0⟩ : Sync.St).pending = 0 ∧
    (⟨[⟨1, 2, 3⟩], [], [], [], [⟨1, 2, 3⟩], 0⟩ : Sync.St).enq.Perm
      (⟨[⟨1, 2, 3⟩], [], [], [], [⟨1, 2, 3⟩], 0⟩ : Sync.St).committed := by
  have r1 : Sync.Reachable (⟨[⟨1, 2, 3⟩], [⟨1, 2, 3⟩], [], [], [], 1⟩ : Sync.St) :=
    Sync.Reachable.step Sync.Reachable.init (Sync.Step.enq_count Sync.init ⟨1, 2, 3⟩)
  have r2 : Sync.Reachable (⟨[⟨1, 2, 3⟩], [], [⟨1, 2, 3⟩], [], [], 1⟩ : Sync.St) :=
    Sync.Reachable.step r1 (Sync.Step.enq_push _ ⟨1, 2, 3⟩ [] [] rfl)
  have r3 : Sync.Reachable (⟨[⟨1, 2, 3⟩], [], [], [⟨1, 2, 3⟩], [], 1⟩ : Sync.St) :=
    Sync.Reachable.step r2 (Sync.Step.drain _ (by simp) rfl)
  have r4 : Sync.Reachable (⟨[⟨1, 2, 3⟩], [], [], [], [⟨1, 2, 3⟩], 0⟩ : Sync.St) :=
    Sync.Reachable.step r3 (Sync.Step.commit _ (by simp))
  exact ⟨rfl, c6_sync_returns_only_when_committed _ r4 rfl⟩

namespace BPlusTree

/-- `leaf_insert` of another 7 into a uniform leaf prepends the pair:
the first key is not `< 7`, so the walk stops at once. -/
theorem leaf_insert_replicate (i : Nat) :
    leaf_insert 7 0 (List.replicate i 7) (List.replicate i 0) =
      (List.replicate (i + 1) 7, List.replicate (i + 1) 0) := by
  cases i with
  | zero => rfl
  | succ m => simp [leaf_insert, List.replicate_succ]

/-- Inserting into a rightmost leaf that stays below `ORDER`. -/
theorem child_grow (rec : BNode → BNode) (j : Nat) (h : j + 1 < 64) :
    insert_into_child rec 7 0 (leafJ j) [] [] = ([], [leafJ (j + 1)], false) := by
  simp only [leafJ, insert_into_child, leaf_insert_replicate]
  rw [if_neg]
  simp only [ORDER, List.length_replicate]
  omega

/-- Inserting into a full rightmost leaf: it is cut into two 32-pair
leaves and the separator 7 is promoted. -/
theorem child_split (rec : BNode → BNode) :
    insert_into_child rec 7 0 (leafJ 63) [] [] = ([7], [l32, l32], true) := rfl

/-- The `upper_bound` walk over a uniform stage-2 node always reaches
the rightmost child: every separator equals the key. -/
theorem walk_uniform (rec : BNode → BNode) (b : Nat) (last : BNode) :
    insert_walk rec 7 0 (List.replicate b 7) (List.replicate b l32 ++ [last]) =
      (List.replicate b 7 ++ (insert_into_child rec 7 0 last [] []).1,
       List.replicate b l32 ++ (insert_into_child rec 7 0 last [] []).2.1,
       (insert_into_child rec 7 0 last [] []).2.2) := by
  induction b with
  | zero => simp [insert_walk]
  | succ m ih => simp [List.replicate_succ, insert_walk, ih]

/-- The walk on the stage-2 node with a full rightmost leaf. -/
theorem stage2_walk_63 (rec : BNode → BNode) (b : Nat) :
    insert_walk rec 7 0 (List.replicate b 7) (List.replicate b l32 ++ [leafJ 63]) =
      (List.replicate (b + 1) 7, List.replicate (b + 1) l32 ++ [l32], true) := by
  rw [walk_uniform, child_split]
  simp [List.replicate_succ', List.append_assoc]

/-- One insert on a stage-2 node whose rightmost leaf has room: the
node keeps its separators, root or not. -/
theorem stage2_grow (fuel : Nat) (isRoot : Bool) (b j : Nat) (h : j + 1 < 64) :
    insert_internal 7 0 (fuel + 1) isRoot (stage2 b j) = stage2 b (j + 1) := by
  have e : stage2 b j =
      .internal (List.replicate b 7) (List.replicate b l32 ++ [leafJ j]) := rfl
  rw [e]
  simp only [insert_internal]
  rw [walk_uniform, child_grow _ _ h]
  simp [stage2]

/-- One insert on a stage-2 node with a full rightmost leaf, while the
separator count stays below `ORDER`: leaf split, no parent split. -/
theorem stage2_split_small (fuel : Nat) (isRoot : Bool) (b : Nat) (h : b + 1 < 64) :
    insert_internal 7 0 (fuel + 1) isRoot (stage2 b 63) = stage2 (b + 1) 32 := by
  have e : stage2 b 63 =
      .internal (List.replicate b 7) (List.replicate b l32 ++ [leafJ 63]) := rfl
  rw [e]
  simp only [insert_internal]
  rw [stage2_walk_63]
  rw [if_neg (by simp only [ORDER, List.length_replicate]; omega :
    ¬ ((true : Bool) = true ∧ ORDER ≤ (List.replicate (b + 1) 7).length))]
  rfl

/-- One insert on a NON-ROOT stage-2 node with a full rightmost leaf,
for every separator count `b`: when `b + 1` reaches `ORDER` the
overflow check fires but `split_internal` does nothing for a non-root
node (bplus_tree.hpp lines 220-223), so the node is simply returned
with `b + 1` separators. -/
theorem stage2_split_nonroot (fuel : Nat) (b : Nat) :
    insert_internal 7 0 (fuel + 1) false (stage2 b 63) = stage2 (b + 1) 32 := by
  have e : stage2 b 63 =
      .internal (List.replicate b 7) (List.replicate b l32 ++ [leafJ 63]) := rfl
  rw [e]
  simp only [insert_internal]
  rw [stage2_walk_63]
  simp only [Bool.false_eq_true, if_false, ite_self]
  rfl

end BPlusTree

namespace BPlusTree

/-- Stage 1: one insert into a uniform root leaf with room. -/
theorem insert_leafJ_grow (i : Nat) (h : i + 1 < 64) :
    insert 7 0 (leafJ i) = leafJ (i + 1) := by
  simp only [leafJ, insert, leaf_insert_replicate]
  rw [if_neg]
  simp only [ORDER, List.length_replicate]
  omega

/-- The 64th insert splits the root leaf (bplus_tree.hpp lines 61-63,
136-161) into the first stage-2 node. -/
theorem insert_leafJ_split : insert 7 0 (leafJ 63) = stage2 1 32 := rfl

/-- Iterated inserts through stage 1. -/
theorem iter_leaf : ∀ i, i ≤ 63 → (insert 7 0)^[i] (.leaf [] []) = leafJ i := by
  intro i
  induction i with
  | zero => intro _; rfl
  | succ m ih =>
    intro h
    rw [Function.iterate_succ_apply', ih (by omega), insert_leafJ_grow m (by omega)]

/-- Top-level insert on a stage-2 root with room in the rightmost
leaf. -/
theorem insert_stage2_grow (b j : Nat) (h : j + 1 < 64) :
    insert 7 0 (stage2 b j) = stage2 b (j + 1) := by
  have e : insert 7 0 (stage2 b j) = insert_internal 7 0 (63 + 1) true (stage2 b j) := rfl
  rw [e]
  exact stage2_grow 63 true b j h

/-- Top-level insert on a stage-2 root with a full rightmost leaf,
separator count staying below `ORDER`. -/
theorem insert_stage2_split (b : Nat) (h : b + 1 < 64) :
    insert 7 0 (stage2 b 63) = stage2 (b + 1) 32 := by
  have e : insert 7 0 (stage2 b 63) = insert_internal 7 0 (63 + 1) true (stage2 b 63) := rfl
  rw [e]
  exact stage2_split_small 63 true b h

/-- The 2080th insert: the stage-2 root reaches 64 separators and
`split_internal` rebuilds it as the stage-3 root (bplus_tree.hpp lines
194-219). -/
theorem insert_stage2_rootsplit : insert 7 0 (stage2 63 63) = stage3 31 32 := rfl

/-- Stage-2 inserts iterated over the rightmost leaf. -/
theorem iter_stage2_j (b : Nat) : ∀ m j, 32 ≤ j → j + m ≤ 63 →
    (insert 7 0)^[m] (stage2 b j) = stage2 b (j + m) := by
  intro m
  induction m with
  | zero => intro j _ _; rfl
  | succ k ih =>
    intro j hj h
    rw [Function.iterate_succ_apply, insert_stage2_grow b j (by omega),
      ih (j + 1) (by omega) (by omega)]
    have e : j + 1 + k = j + (k + 1) := by omega
    rw [e]

/-- A full stage-2 round: 32 inserts take `b` to `b + 1`. -/
theorem iter32_stage2 (b : Nat) (h : b + 1 < 64) :
    (insert 7 0)^[32] (stage2 b 32) = stage2 (b + 1) 32 := by
  rw [show (32 : Nat) = 31 + 1 from rfl, Function.iterate_succ_apply',
    iter_stage2_j b 31 32 (by omega) (by omega)]
  exact insert_stage2_split b h

/-- Stage-2 rounds iterated. -/
theorem iter_stage2_rounds : ∀ m b, 1 ≤ b → b + m ≤ 63 →
    (insert 7 0)^[32 * m] (stage2 b 32) = stage2 (b + m) 32 := by
  intro m
  induction m with
  | zero => intro b _ _; rfl
  | succ k ih =>
    intro b hb h
    have e : 32 * (k + 1) = 32 * k + 32 := by ring
    rw [e, Function.iterate_add_apply, iter32_stage2 b (by omega),
      ih (b + 1) (by omega) (by omega)]
    have e2 : b + 1 + k = b + (k + 1) := by omega
    rw [e2]

/-- The first 2080 inserts from the empty tree produce the stage-3
root: 64 to fill and split the root leaf, 62 rounds of 32 to fill the
root with separators, and a last 32 ending in the root split. -/
theorem iter_to_stage3 : (insert 7 0)^[2080] (.leaf [] []) = stage3 31 32 := by
  have e : (2080 : Nat) = 32 + (32 * 62 + 64) := by norm_num
  rw [e, Function.iterate_add_apply, Function.iterate_add_apply]
  rw [show (insert 7 0)^[64] (.leaf [] []) = stage2 1 32 from by
    rw [show (64 : Nat) = 63 + 1 from rfl, Function.iterate_succ_apply',
      iter_leaf 63 (by omega)]
    exact insert_leafJ_split]
  rw [iter_stage2_rounds 62 1 (by omega) (by omega)]
  rw [show (32 : Nat) = 31 + 1 from rfl, Function.iterate_succ_apply',
    iter_stage2_j 63 31 32 (by omega) (by omega)]
  exact insert_stage2_rootsplit

/-- Unfolding one insert through the stage-3 root: the walk keeps the
single separator and the left child and descends into the right child
with `isRoot = false`. -/
theorem insert_internal_stage3 (fuel b j : Nat) :
    insert_internal 7 0 (fuel + 1 + 1) true (.internal [7] [bigA, stage2 b j]) =
      .internal [7] [bigA, insert_internal 7 0 (fuel + 1) false (stage2 b j)] := rfl

/-- Top-level insert on a stage-3 tree with room in the rightmost
leaf. -/
theorem insert_stage3_grow (b j : Nat) (h : j + 1 < 64) :
    insert 7 0 (stage3 b j) = stage3 b (j + 1) := by
  have e : insert 7 0 (stage3 b j) =
      insert_internal 7 0 (62 + 1 + 1) true (.internal [7] [bigA, stage2 b j]) := rfl
  rw [e, insert_internal_stage3 62 b j, stage2_grow 62 false b j h]
  rfl

/-- Top-level insert on a stage-3 tree with a full rightmost leaf: the
non-root right child gains a separator for EVERY `b`, even past
`ORDER`, because its split is unimplemented. -/
theorem insert_stage3_split (b : Nat) :
    insert 7 0 (stage3 b 63) = stage3 (b + 1) 32 := by
  have e : insert 7 0 (stage3 b 63) =
      insert_internal 7 0 (62 + 1 + 1) true (.internal [7] [bigA, stage2 b 63]) := rfl
  rw [e, insert_internal_stage3 62 b 63, stage2_split_nonroot 62 b]
  rfl

/-- Stage-3 inserts iterated over the rightmost leaf. -/
theorem iter_stage3_j (b : Nat) : ∀ m j, 32 ≤ j → j + m ≤ 63 →
    (insert 7 0)^[m] (stage3 b j) = stage3 b (j + m) := by
  intro m
  induction m with
  | zero => intro j _ _; rfl
  | succ k ih =>
    intro j hj h
    rw [Function.iterate_succ_apply, insert_stage3_grow b j (by omega),
      ih (j + 1) (by omega) (by omega)]
    have e : j + 1 + k = j + (k + 1) := by omega
    rw [e]

/-- A full stage-3 round: 32 inserts take the non-root child from `b`
to `b + 1` separators, with no upper bound on `b`. -/
theorem iter32_stage3 (b : Nat) :
    (insert 7 0)^[32] (stage3 b 32) = stage3 (b + 1) 32 := by
  rw [show (32 : Nat) = 31 + 1 from rfl, Function.iterate_succ_apply',
    iter_stage3_j b 31 32 (by omega) (by omega)]
  exact insert_stage3_split b

/-- Stage-3 rounds iterated: the separator count of the non-root
internal child grows without bound. -/
theorem iter_stage3_rounds : ∀ m b, (insert 7 0)^[32 * m] (stage3 b 32) = stage3 (b + m) 32 := by
  intro m
  induction m with
  | zero => intro b; rfl
  | succ k ih =>
    intro b
    have e : 32 * (k + 1) = 32 * k + 32 := by ring
    rw [e, Function.iterate_add_apply, iter32_stage3 b, ih (b + 1)]
    have e2 : b + 1 + k = b + (k + 1) := by omega
    rw [e2]

/-- After 3168 inserts of key 7 from the empty tree, the right internal
child holds 65 separators and 66 children. -/
theorem iter_to_overflow : (insert 7 0)^[3168] (.leaf [] []) = stage3 65 32 := by
  have e : (3168 : Nat) = 32 * 34 + 2080 := by norm_num
  rw [e, Function.iterate_add_apply, iter_to_stage3, iter_stage3_rounds 34 31]

end BPlusTree

/-- C3: inserting key 7 (value 0) 3168 times into the empty tree
produces a tree containing an internal node with 65 > B = 64 separator
keys and 66 > B + 1 children: the non-root internal child accumulates
one separator per leaf split, and `split_internal` leaves non-root
nodes unsplit (the TODO of bplus_tree.hpp lines 220-223), so the
claimed shape bound fails.  `nodes_within_order` checks every internal
node against the bound. -/
theorem c3_internal_node_exceeds_order :
    BPlusTree.nodes_within_order 64
      ((BPlusTree.insert 7 0)^[3168] (.leaf [] [])) = false := by
  rw [BPlusTree.iter_to_overflow]
  decide
